import Mathlib

/-!
Shallow embedding of the `schemastream` streaming decode-and-validate engine
(`ValidateParse`, `decodeAnything`, `decodeValue`, `decodeArray`,
`decodeObject`, `indirect` and the one-token pushback `Decoder`), translated
from the Go source.  The token stream produced by the standard-library JSON
tokenizer is modelled as a list of tokens with end-of-stream reported as an
error; Go `reflect` destinations are modelled as a tree of typed, settable
values with pointer, slice and struct shapes; a reflect operation that would
panic in Go is modelled by a distinguished `crash` outcome.  The external
`validate.AgainstSchema` constraint checker is an out-of-scope collaborator
and is passed in as an abstract pass/fail function.
-/

namespace SchemaStream

/-- The numeric kinds of Go's `reflect` package that are not float kinds,
with a constructor per kind so that assignability mismatches are visible. -/
inductive IntKind where
  | iint | i8 | i16 | i32 | i64
  | iuint | u8 | u16 | u32 | u64
  | uptr
deriving DecidableEq, Repr

/-- The numeric code `reflect.Kind` assigns to each integer kind
(`reflect.Int` is 2, ..., `reflect.Uint64` is 11, `reflect.Uintptr` is 12). -/
def IntKind.code : IntKind → Nat
  | .iint => 2 | .i8 => 3 | .i16 => 4 | .i32 => 5 | .i64 => 6
  | .iuint => 7 | .u8 => 8 | .u16 => 9 | .u32 => 10 | .u64 => 11
  | .uptr => 12

/-- The subset of `reflect.Kind` relevant to the decode engine. -/
inductive Kind where
  | kinvalid
  | kbool
  | kint (ik : IntKind)
  | kfloat32
  | kfloat64
  | kptr
  | kslice
  | kstring
  | kstruct
deriving DecidableEq, Repr

/-- Numeric code of a kind, matching the `reflect.Kind` constants; the
engine compares kinds by this order (`intoKind >= reflect.Int &&
intoKind <= reflect.Uint64`). -/
def Kind.code : Kind → Nat
  | .kinvalid => 0
  | .kbool => 1
  | .kint ik => ik.code
  | .kfloat32 => 13
  | .kfloat64 => 14
  | .kptr => 22
  | .kslice => 23
  | .kstring => 24
  | .kstruct => 25

/-- One token of the JSON token stream, as delivered by
`encoding/json.Decoder.Token` with `UseNumber()` enabled: the four
delimiters, strings, numbers (as `json.Number`, modelled by a rational
holding the numeral's exact value), booleans and `null`.  Commas and colons
are not delivered by the tokenizer. -/
inductive Tok where
  | lbrace | rbrace
  | lbrack | rbrack
  | str (s : String)
  | num (q : Rat)
  | bool (b : Bool)
  | null
deriving DecidableEq, Repr

mutual
/-- Static Go types of destination values, as far as the engine inspects
them through `reflect.Type`. -/
inductive GoType where
  | tbool
  | tstring
  | tint (ik : IntKind)
  | tfloat32
  | tfloat64
  | tptr (elem : GoType)
  | tslice (elem : GoType)
  | tstruct (sname : String) (fields : StructFields)
deriving DecidableEq, Repr

/-- Field list of a struct type: declared name, optional `json` tag, type. -/
inductive StructFields where
  | nil
  | cons (fname : String) (tag : Option String) (fty : GoType) (rest : StructFields)
deriving DecidableEq, Repr
end

mutual
/-- A Go value as held by a settable `reflect.Value`: the destination
object graph.  Pointers carry their pointee type so that nil pointers can be
allocated (`reflect.New(v.Type().Elem())`); slices carry their element type
(`Type().Elem()`); the zero `reflect.Value` is `vinvalid`. -/
inductive GoValue where
  | vbool (b : Bool)
  | vstring (s : String)
  | vint (ik : IntKind) (n : Int)
  | vfloat32 (x : Rat)
  | vfloat64 (x : Rat)
  | vptrTo (elem : GoType) (pointee : GoValue)
  | vptrNil (elem : GoType)
  | vslice (elem : GoType) (elems : GoValueList)
  | vstruct (sname : String) (fields : FieldVals)
  | vinvalid
deriving DecidableEq, Repr

/-- A list of Go values (the elements of a slice). -/
inductive GoValueList where
  | nil
  | cons (v : GoValue) (rest : GoValueList)
deriving DecidableEq, Repr

/-- The fields of a struct value: declared name, optional `json` tag, value. -/
inductive FieldVals where
  | nil
  | cons (fname : String) (tag : Option String) (v : GoValue) (rest : FieldVals)
deriving DecidableEq, Repr
end

/-- `reflect.Value.Kind`. -/
def GoValue.kind : GoValue → Kind
  | .vbool _ => .kbool
  | .vstring _ => .kstring
  | .vint ik _ => .kint ik
  | .vfloat32 _ => .kfloat32
  | .vfloat64 _ => .kfloat64
  | .vptrTo _ _ => .kptr
  | .vptrNil _ => .kptr
  | .vslice _ _ => .kslice
  | .vstruct _ _ => .kstruct
  | .vinvalid => .kinvalid

/-- `reflect.Value.IsValid`: false exactly for the zero `reflect.Value`. -/
def GoValue.isValid : GoValue → Bool
  | .vinvalid => false
  | _ => true

mutual
/-- `reflect.Value.Type`, which panics (`none`) on the zero Value. -/
def GoValue.typeOf : GoValue → Option GoType
  | .vbool _ => some .tbool
  | .vstring _ => some .tstring
  | .vint ik _ => some (.tint ik)
  | .vfloat32 _ => some .tfloat32
  | .vfloat64 _ => some .tfloat64
  | .vptrTo t _ => some (.tptr t)
  | .vptrNil t => some (.tptr t)
  | .vslice t _ => some (.tslice t)
  | .vstruct nm fs => match FieldVals.typesOf fs with
    | some ts => some (.tstruct nm ts)
    | none => none
  | .vinvalid => none

/-- Types of a struct value's fields, failing if any field is invalid. -/
def FieldVals.typesOf : FieldVals → Option StructFields
  | .nil => some .nil
  | .cons nm tag v rest => match GoValue.typeOf v, FieldVals.typesOf rest with
    | some t, some ts => some (.cons nm tag t ts)
    | _, _ => none
end

mutual
/-- The zero value of a Go type (`reflect.New(t).Elem()`). -/
def zeroValue : GoType → GoValue
  | .tbool => .vbool false
  | .tstring => .vstring ""
  | .tint ik => .vint ik 0
  | .tfloat32 => .vfloat32 0
  | .tfloat64 => .vfloat64 0
  | .tptr t => .vptrNil t
  | .tslice t => .vslice t .nil
  | .tstruct nm fs => .vstruct nm (zeroFields fs)

/-- Zero values of a struct type's fields. -/
def zeroFields : StructFields → FieldVals
  | .nil => .nil
  | .cons nm tag t rest => .cons nm tag (zeroValue t) (zeroFields rest)
end

/-- `reflect.Type.Elem`, defined for pointer and slice types and a panic
(`none`) otherwise. -/
def GoType.elemType : GoType → Option GoType
  | .tptr t => some t
  | .tslice t => some t
  | _ => none

/-- Dereference `n` layers of pointers (the location, inside the returned
tree of `indirect`, that the walk stopped at). -/
def derefN : GoValue → Nat → GoValue
  | v, 0 => v
  | .vptrTo _ pv, n + 1 => derefN pv n
  | _, _ + 1 => .vinvalid

/-- Write `x` at the location `n` pointer layers below `v`, modelling that
the inner location returned by `indirect` is reached through (and aliases)
the outer pointers. -/
def putN : GoValue → Nat → GoValue → GoValue
  | _, 0, x => x
  | .vptrTo t pv, n + 1, x => .vptrTo t (putN pv n x)
  | v, _ + 1, _ => v

/-- Append to a slice's element list. -/
def GoValueList.push : GoValueList → GoValue → GoValueList
  | .nil, x => .cons x .nil
  | .cons v rest, x => .cons v (rest.push x)

/-- `reflect.Append(s, x)`: panics (`none`) unless `s` is a slice and `x`
has the slice's element type. -/
def goAppend (s x : GoValue) : Option GoValue :=
  match s with
  | .vslice et xs =>
    match x.typeOf with
    | some tx => if tx = et then some (.vslice et (xs.push x)) else none
    | none => none
  | _ => none

/-- `reflect.Value.Set(x)` on a location currently holding `cur`: panics
(`none`) unless `x`'s type is assignable to (here: equal to) the location's
type; on success the location simply holds `x`. -/
def reflectSet (cur x : GoValue) : Option GoValue :=
  match cur.typeOf, x.typeOf with
  | some tc, some tx => if tx = tc then some x else none
  | _, _ => none

/-- Walk of `indirect(v, decodingNull)` along the pointer layers of the
static type `t` of `v` (the source walks the dynamic value; on our value
domain, which has no interface values and no types with methods, only the
pointer branches of the loop are live).  Each nil pointer layer is allocated
with `v.Set(reflect.New(v.Type().Elem()))`; with `decodingNull` the walk
stops at the last pointer layer before a non-pointer (the `v.Elem().Kind()
!= reflect.Ptr && decodingNull && v.CanSet()` break; `CanSet` is true for
the settable destinations the engine passes in).  Returns the updated value
together with the pointer depth of the location the walk stopped at. -/
def indirectT : GoType → GoValue → Bool → GoValue × Nat
  | .tptr te, v, dn =>
    match v with
    | .vptrTo _ pv =>
      if dn && !(pv.kind = Kind.kptr) then (.vptrTo te pv, 0)
      else
        let r := indirectT te pv dn
        (.vptrTo te r.fst, r.snd + 1)
    | _ =>
      -- a nil pointer: `v.Elem()` is the zero Value, whose kind is Invalid
      if dn then (v, 0)
      else
        let r := indirectT te (zeroValue te) dn
        (.vptrTo te r.fst, r.snd + 1)
  | _, v, _ => (v, 0)

/-- `indirect(v, decodingNull)` of the source: resolve the destination's
pointer indirection, allocating empty layers, down to the first non-pointer
location.  (The `json.Unmarshaler` / `encoding.TextUnmarshaler` early
returns of the source are dead on our value domain, whose types have no
methods, as are the interface branches.) -/
def indirect (v : GoValue) (decodingNull : Bool) : GoValue × Nat :=
  match v.typeOf with
  | some t => indirectT t v decodingNull
  | none => (v, 0)

/-- The attributes of a `spec.Schema` node the engine consumes: the type
set (`Type`, queried with `Contains`), the properties map, the items
fragment (`Items` is a nullable `*SchemaOrArray` whose `Schema` field is a
nullable `*Schema`, hence the nested `Option`), and the
additional-properties policy (`AdditionalProperties` is a nullable
`*SchemaOrBool` whose `Allows` field is the inner `Bool`). -/
inductive Schema where
  | mk (type : List String)
       (properties : List (String × Schema))
       (items : Option (Option Schema))
       (additionalProperties : Option Bool)

/-- Type set of a schema node. -/
def Schema.type : Schema → List String
  | .mk t _ _ _ => t

/-- Properties map of a schema node. -/
def Schema.properties : Schema → List (String × Schema)
  | .mk _ p _ _ => p

/-- Items fragment of a schema node. -/
def Schema.items : Schema → Option (Option Schema)
  | .mk _ _ i _ => i

/-- Additional-properties policy of a schema node. -/
def Schema.additionalProperties : Schema → Option Bool
  | .mk _ _ _ a => a

/-- `baton.schema.Type.Contains(s)`. -/
def Schema.typeContains (sch : Schema) (s : String) : Bool :=
  sch.type.contains s

/-- Lookup in the `Properties` map (`baton.schema.Properties[keyName]`). -/
def lookupProp : List (String × Schema) → String → Option Schema
  | [], _ => none
  | (k, sch) :: rest, key => if k = key then some sch else lookupProp rest key

/-- The `Baton` threaded through the recursion: current schema fragment
(nil for unmapped-but-permitted values), destination `reflect.Value`, and
the diagnostic path. -/
structure Baton where
  schema : Option Schema
  into : GoValue
  path : List String

/-- The errors the engine can return.  Error messages are represented
structurally; `wrap` is `errors.Wrapf(err, "At path %s", ...)`.
`checkerReject` stands for whatever error the external
`validate.AgainstSchema` collaborator returned. -/
inductive GoErr where
  | eof
  | invalidUnmarshal
  | unknownToken (s : String)
  | checkerReject
  | stringMismatch (k : Kind)
  | unexpectedNumber
  | numberSyntax
  | numberCast (k : Kind)
  | boolSchemaCast (types : List String)
  | boolCast (k : Kind)
  | unknownType
  | notExpectingArray
  | notExpectingObject
  | expectedString (t : Tok)
  | unknownProperty (name : String)
  | wrap (path : List String) (e : GoErr)
deriving DecidableEq, Repr

deriving instance DecidableEq for Except

/-- The `Decoder` wrapper: the remaining output of the underlying
tokenizer, plus the one-slot pushback `nextRes` holding a buffered
(token, error) result. -/
structure DecodeState where
  toks : List Tok
  nextRes : Option (Except GoErr Tok)
deriving DecidableEq, Repr

/-- `Decoder.Token()`: drain the pushback slot if full, otherwise pull from
the tokenizer (end of input yields `io.EOF`). -/
def DecodeState.token : DecodeState → (Except GoErr Tok) × DecodeState
  | ⟨toks, some r⟩ => (r, ⟨toks, none⟩)
  | ⟨t :: ts, none⟩ => (.ok t, ⟨ts, none⟩)
  | ⟨[], none⟩ => (.error .eof, ⟨[], none⟩)

/-- `Decoder.nextToken()`: peek without consuming, filling the pushback
slot lazily; idempotent until the next `Token()`. -/
def DecodeState.nextToken : DecodeState → (Except GoErr Tok) × DecodeState
  | ⟨toks, some r⟩ => (r, ⟨toks, some r⟩)
  | ⟨t :: ts, none⟩ => (.ok t, ⟨ts, some (.ok t)⟩)
  | ⟨[], none⟩ => (.error .eof, ⟨[], some (.error .eof)⟩)

/-- The tokens still to be delivered, pushback included; `none` when the
pushback slot holds a buffered stream error. -/
def DecodeState.avail : DecodeState → Option (List Tok)
  | ⟨toks, none⟩ => some toks
  | ⟨toks, some (.ok t)⟩ => some (t :: toks)
  | ⟨_, some (.error _)⟩ => none

/-- An external constraint checker, standing for
`validate.AgainstSchema(schema, token, strfmt.Default)`: `true` means the
call returned no error. -/
def Checker := Schema → Tok → Bool

/-- `json.Number.Int64()`: `strconv.ParseInt` on the numeral, failing on a
non-integer numeral or one outside the `int64` range. -/
def jnumInt64 (q : Rat) : Except GoErr Int :=
  if q.den = 1 ∧ -(2 ^ 63) ≤ q.num ∧ q.num < 2 ^ 63 then .ok q.num
  else .error .numberSyntax

/-- `json.Number.Float64()`: `strconv.ParseFloat`, which succeeds on every
JSON numeral (rounding to the nearest `float64` is not modelled; no claim
depends on the rounded value). -/
def jnumFloat64 (q : Rat) : Except GoErr Rat := .ok q

/-- Result of `decodeValue`, which reads no tokens: the destination value
after the call, with success, error, or a reflect panic. -/
inductive VRes where
  | okv (v : GoValue)
  | errv (v : GoValue) (e : GoErr)
  | crash (msg : String)
deriving DecidableEq, Repr

/-- Result of the token-consuming decode functions: decoder state and
destination value after the call, with success, error, or a panic. -/
inductive DRes where
  | ok (s : DecodeState) (v : GoValue)
  | err (s : DecodeState) (v : GoValue) (e : GoErr)
  | crash (msg : String)
deriving DecidableEq, Repr

/-- Lift a `decodeValue` result into a `DRes` at the current state. -/
def liftV (s : DecodeState) : VRes → DRes
  | .okv v => .ok s v
  | .errv v e => .err s v e
  | .crash m => .crash m

/-- `decodeValue(decoder, baton, token)` of the source: scalar binding.
Returns early (destination untouched) on a nil schema, an invalid
destination, or a `null` token; otherwise resolves indirection with
`indirect(baton.into, token == nil)` (the flag is always false here, the
`null` case having returned), consults the external checker, and then
dispatches on the token's dynamic type exactly as the source's `switch`. -/
def decodeValue (checker : Checker) (baton : Baton) (token : Tok) : VRes :=
  match baton.schema with
  | none => .okv baton.into
  | some sch =>
    if !baton.into.isValid then .okv baton.into
    else if token = Tok.null then .okv baton.into
    else
      let r := indirect baton.into false
      let v1 := r.fst
      let d := r.snd
      let into := derefN v1 d
      let intoKind := into.kind
      if !(checker sch token) then .errv v1 .checkerReject
      else
        match token with
        | .str sv =>
          if intoKind ≠ Kind.kstring then .errv v1 (.stringMismatch intoKind)
          else match reflectSet into (.vstring sv) with
            | some nv => .okv (putN v1 d nv)
            | none => .crash "reflect.Set: string value not assignable"
        | .num q =>
          if !(sch.typeContains "number" || sch.typeContains "integer") then
            .errv v1 .unexpectedNumber
          else if intoKind = Kind.kfloat64 ∨ intoKind = Kind.kfloat32 then
            match jnumFloat64 q with
            | .error e => .errv v1 e
            | .ok x =>
              match reflectSet into (.vfloat64 x) with
              | some nv => .okv (putN v1 d nv)
              | none => .crash "reflect.Set: float64 value not assignable"
          else if 2 ≤ intoKind.code ∧ intoKind.code ≤ 11 then
            match jnumInt64 q with
            | .error e => .errv v1 e
            | .ok n =>
              match reflectSet into (.vint .i64 n) with
              | some nv => .okv (putN v1 d nv)
              | none => .crash "reflect.Set: int64 value not assignable"
          else .errv v1 (.numberCast intoKind)
        | .bool b =>
          if !(sch.typeContains "boolean") then .errv v1 (.boolSchemaCast sch.type)
          else if intoKind ≠ Kind.kbool then .errv v1 (.boolCast intoKind)
          else match reflectSet into (.vbool b) with
            | some nv => .okv (putN v1 d nv)
            | none => .crash "reflect.Set: bool value not assignable"
        | _ => .errv v1 .unknownType

/-- `unicode.ToLower` of one character, for the ASCII letters that occur in
Go identifiers and JSON keys. -/
def asciiLowerChar (c : Char) : Char :=
  if 'A' ≤ c ∧ c ≤ 'Z' then Char.ofNat (c.toNat + 32) else c

/-- `strings.ToLower`. -/
def goToLower (s : String) : String := ⟨s.data.map asciiLowerChar⟩

/-- `strings.Split(jsonTag, ",")[0]`: the tag text before the first comma. -/
def goTagBase (tag : String) : String := ⟨tag.data.takeWhile (fun c => c ≠ ',')⟩

/-- Go map assignment `m[k] = i`: replace an existing binding or add one. -/
def mapPut : List (String × Nat) → String → Nat → List (String × Nat)
  | [], k, i => [(k, i)]
  | (k0, i0) :: rest, k, i =>
    if k0 = k then (k, i) :: rest else (k0, i0) :: mapPut rest k i

/-- Go map lookup `m[k]`. -/
def mapGet : List (String × Nat) → String → Option Nat
  | [], _ => none
  | (k0, i0) :: rest, k => if k0 = k then some i0 else mapGet rest k

/-- The field-map build of `decodeObject`: walk the struct's fields by
index; a field with a `json` tag goes into `fieldsByTag` under the tag's
base; an untagged field goes into `backupFieldsByTag` under its lowercased
declared name. -/
def buildMapsAux : Nat → FieldVals → List (String × Nat) → List (String × Nat) →
    (List (String × Nat)) × (List (String × Nat))
  | _, .nil, tagMap, backMap => (tagMap, backMap)
  | idx, .cons nm tag _ rest, tagMap, backMap =>
    match tag with
    | some jt => buildMapsAux (idx + 1) rest (mapPut tagMap (goTagBase jt) idx) backMap
    | none => buildMapsAux (idx + 1) rest tagMap (mapPut backMap (goToLower nm) idx)

/-- Both field maps of `decodeObject`, built once per object decode. -/
def buildFieldMaps (fs : FieldVals) : (List (String × Nat)) × (List (String × Nat)) :=
  buildMapsAux 0 fs [] []

/-- `into.Field(i)` on the resolved struct. -/
def fldGet : FieldVals → Nat → GoValue
  | .nil, _ => .vinvalid
  | .cons _ _ v _, 0 => v
  | .cons _ _ _ rest, n + 1 => fldGet rest n

/-- Write back the (possibly mutated) value of field `i`. -/
def fldSet : FieldVals → Nat → GoValue → FieldVals
  | .nil, _, _ => .nil
  | .cons nm tag _ rest, 0, x => .cons nm tag x rest
  | .cons nm tag v rest, n + 1, x => .cons nm tag v (fldSet rest n x)

/-- Outcome of the non-consuming prelude of `decodeObject` or
`decodeArray`, before their token loops start. -/
inductive ObjSetup where
  | failc (msg : String)
  | faile (e : GoErr)
  | go (sch : Schema) (v1 : GoValue) (d : Nat) (nm : String) (flds : FieldVals)
       (tagMap backMap : List (String × Nat))

/-- The prelude of `decodeObject`: the `printToken`-style trace line calls
`baton.into.Type().Name()` (a panic on the zero Value); then the nil schema
is dereferenced by `baton.schema.Type.Contains("object")` (a panic when the
schema is nil); then indirection is resolved with `indirect(baton.into,
false)` and the field maps are built from the concrete struct
(`into.NumField()` panics on a non-struct). -/
def objSetup (baton : Baton) : ObjSetup :=
  match baton.into.typeOf with
  | none => .failc "reflect: call of reflect.Value.Type on zero Value"
  | some _ =>
    match baton.schema with
    | none => .failc "runtime error: invalid memory address or nil pointer dereference"
    | some sch =>
      if !(sch.typeContains "object") then .faile .notExpectingObject
      else
        let r := indirect baton.into false
        match derefN r.fst r.snd with
        | .vstruct nm flds =>
          let maps := buildFieldMaps flds
          .go sch r.fst r.snd nm flds maps.fst maps.snd
        | _ => .failc "reflect: call of reflect.Value.NumField on non-struct Value"

/-- Outcome of the prelude of `decodeArray`. -/
inductive ArrSetup where
  | failc (msg : String)
  | faile (e : GoErr)
  | go (sch : Schema) (itemType : GoType)

/-- The prelude of `decodeArray`: the nil schema is dereferenced by
`baton.schema.Type.Contains("array")` (a panic when the schema is nil);
then `itemType := baton.into.Type().Elem()` (`Type()` panics on the zero
Value and `Elem()` panics on a non-pointer, non-slice type).  Note the
source takes `Elem()` of the destination's type without resolving pointer
indirection first. -/
def arrSetup (baton : Baton) : ArrSetup :=
  match baton.schema with
  | none => .failc "runtime error: invalid memory address or nil pointer dereference"
  | some sch =>
    if !(sch.typeContains "array") then .faile .notExpectingArray
    else
      match baton.into.typeOf with
      | none => .failc "reflect: call of reflect.Value.Type on zero Value"
      | some t =>
        match t.elemType with
        | none => .failc "reflect: Elem of invalid type"
        | some itemType => .go sch itemType

mutual
/-- `decodeAnything(decoder, baton)` of the source: fetch one token;
`{` and `[` dispatch to the object and array protocols, any other delimiter
is an unknown-token error, and any non-delimiter token goes to
`decodeValue`.  Recursion is fuelled; every recursive call strictly
decreases the fuel, and exhausted fuel is reported as a crash (the source
recursion terminates because every call consumes at least one token). -/
def decodeAnything (checker : Checker) : Nat → DecodeState → Baton → DRes
  | 0, _, _ => .crash "out of fuel"
  | fuel + 1, s, baton =>
    match s.token with
    | (.error e, s1) => .err s1 baton.into e
    | (.ok t, s1) =>
      match t with
      | .lbrace =>
        match objSetup baton with
        | .failc m => .crash m
        | .faile e => .err s1 baton.into e
        | .go sch v1 d nm flds tagMap backMap =>
          objLoop checker fuel s1 sch baton v1 d nm flds tagMap backMap
      | .lbrack =>
        match arrSetup baton with
        | .failc m => .crash m
        | .faile e => .err s1 baton.into e
        | .go sch itemType => arrLoop checker fuel s1 sch itemType baton baton.into 0
      | .rbrace => .err s1 baton.into (.unknownToken "\x7d")
      | .rbrack => .err s1 baton.into (.unknownToken "]")
      | _ => liftV s1 (decodeValue checker baton t)
termination_by structural fuel => fuel

/-- The `for` loop of `decodeObject`: consume a key token; `}` ends the
object successfully; a non-string key is an error; otherwise look up the
destination field in the two maps, look up the child schema in the
properties map (failing with an unknown-property error when absent and
additional properties are not allowed, or proceeding with a nil child
schema when allowed), recurse, write the child's destination back into the
struct, and wrap any child error with the extended path. -/
def objLoop (checker : Checker) : Nat → DecodeState → Schema → Baton → GoValue →
    Nat → String → FieldVals → List (String × Nat) → List (String × Nat) → DRes
  | 0, _, _, _, _, _, _, _, _, _ => .crash "out of fuel"
  | fuel + 1, s, sch, baton, v1, d, nm, flds, tagMap, backMap =>
    let dest := putN v1 d (GoValue.vstruct nm flds)
    match s.token with
    | (.error e, s1) => .err s1 dest e
    | (.ok t, s1) =>
      if t = Tok.rbrace then .ok s1 dest
      else
        match t with
        | .str keyName =>
          let fieldIdx := match mapGet tagMap keyName with
            | some i => some i
            | none => mapGet backMap (goToLower keyName)
          let childSchema : Option (Option Schema) :=
            match lookupProp sch.properties keyName with
            | some fs => some (some fs)
            | none =>
              match sch.additionalProperties with
              | some true => some none
              | _ => none
          match childSchema with
          | none => .err s1 dest (.unknownProperty keyName)
          | some cs =>
            let field := match fieldIdx with
              | some i => fldGet flds i
              | none => GoValue.vinvalid
            let fieldPath := baton.path ++ [keyName]
            match decodeAnything checker fuel s1 ⟨cs, field, fieldPath⟩ with
            | .crash m => .crash m
            | .err s2 fv e =>
              let flds2 := match fieldIdx with
                | some i => fldSet flds i fv
                | none => flds
              .err s2 (putN v1 d (GoValue.vstruct nm flds2)) (.wrap fieldPath e)
            | .ok s2 fv =>
              let flds2 := match fieldIdx with
                | some i => fldSet flds i fv
                | none => flds
              objLoop checker fuel s2 sch baton v1 d nm flds2 tagMap backMap
        | _ => .err s1 dest (.expectedString t)
termination_by structural fuel => fuel

/-- The `for` loop of `decodeArray`: peek (not consume) the next token; on
`]` assign the accumulated sequence to the destination with
`baton.into.Set(arrayValue)`, discard the peeked token and return; otherwise
allocate a fresh element with `reflect.New(itemType)`, fetch the item schema
(`baton.schema.Items.Schema`, a nil dereference when `Items` is nil),
recurse into the element, append `field.Elem()` to the local accumulator
and continue.  On a failed element the destination is returned untouched. -/
def arrLoop (checker : Checker) : Nat → DecodeState → Schema → GoType → Baton →
    GoValue → Nat → DRes
  | 0, _, _, _, _, _, _ => .crash "out of fuel"
  | fuel + 1, s, sch, itemType, baton, acc, idx =>
    match s.nextToken with
    | (.error e, s1) => .err s1 baton.into e
    | (.ok t, s1) =>
      if t = Tok.rbrack then
        match reflectSet baton.into acc with
        | none => .crash "reflect.Set: slice value not assignable"
        | some into2 =>
          let s2 := s1.token.snd
          .ok s2 into2
      else
        match sch.items with
        | none => .crash "runtime error: invalid memory address or nil pointer dereference"
        | some fieldSchema =>
          let field := GoValue.vptrTo itemType (zeroValue itemType)
          let fieldPath := baton.path ++ [toString idx]
          match decodeAnything checker fuel s1 ⟨fieldSchema, field, fieldPath⟩ with
          | .crash m => .crash m
          | .err s2 _ e => .err s2 baton.into (.wrap fieldPath e)
          | .ok s2 field2 =>
            match field2 with
            | .vptrTo _ fe =>
              match goAppend acc fe with
              | none => .crash "reflect.Append: value of wrong type"
              | some acc2 => arrLoop checker fuel s2 sch itemType baton acc2 (idx + 1)
            | _ => .crash "reflect: call of reflect.Value.Elem on non-pointer Value"
termination_by structural fuel => fuel
end

/-- `decodeObject(decoder, baton)` of the source, entered after the `{`
token has been consumed. -/
def decodeObject (checker : Checker) (fuel : Nat) (s : DecodeState) (baton : Baton) : DRes :=
  match objSetup baton with
  | .failc m => .crash m
  | .faile e => .err s baton.into e
  | .go sch v1 d nm flds tagMap backMap =>
    objLoop checker fuel s sch baton v1 d nm flds tagMap backMap

/-- `decodeArray(decoder, baton)` of the source, entered after the `[`
token has been consumed. -/
def decodeArray (checker : Checker) (fuel : Nat) (s : DecodeState) (baton : Baton) : DRes :=
  match arrSetup baton with
  | .failc m => .crash m
  | .faile e => .err s baton.into e
  | .go sch itemType => arrLoop checker fuel s sch itemType baton baton.into 0

/-- `ValidateParse(reader, into, schema)` of the source: reject a
destination that is not a non-nil pointer with `json.InvalidUnmarshalError`
before constructing any token-reading state, then decode into
`reflect.ValueOf(into).Elem()`; the destination returned on completion is
the pointer with its (possibly mutated) pointee. -/
def ValidateParse (checker : Checker) (fuel : Nat) (toks : List Tok)
    (into : GoValue) (schema : Option Schema) : DRes :=
  let s : DecodeState := ⟨toks, none⟩
  match into with
  | .vptrTo t pv =>
    match decodeAnything checker fuel s ⟨schema, pv, []⟩ with
    | .ok s' pv' => .ok s' (.vptrTo t pv')
    | .err s' pv' e => .err s' (.vptrTo t pv') e
    | .crash m => .crash m
  | _ => .err s into .invalidUnmarshal

/-- Fold of `reflect.Append` over a list of elements: the accumulated
sequence of `decodeArray`, appended in order. -/
def goAppendAll : GoValue → List GoValue → Option GoValue
  | a, [] => some a
  | a, w :: ws =>
    match goAppend a w with
    | some a2 => goAppendAll a2 ws
    | none => none

mutual
/-- A JSON document (the abstract value a conformant tokenizer serializes),
used to state which token lists form one complete JSON value. -/
inductive Json where
  | jstr (s : String)
  | jnum (q : Rat)
  | jbool (b : Bool)
  | jnull
  | jarr (elems : JsonList)
  | jobj (members : JsonMembers)

/-- A list of JSON values (array elements). -/
inductive JsonList where
  | nil
  | cons (j : Json) (rest : JsonList)

/-- A list of JSON object members (key and value, in document order). -/
inductive JsonMembers where
  | nil
  | cons (k : String) (j : Json) (rest : JsonMembers)
end

mutual
/-- The token stream a conformant tokenizer produces for one JSON value. -/
def Json.toks : Json → List Tok
  | .jstr s => [.str s]
  | .jnum q => [.num q]
  | .jbool b => [.bool b]
  | .jnull => [.null]
  | .jarr es => .lbrack :: (jsonListToks es ++ [.rbrack])
  | .jobj ms => .lbrace :: (jsonMembersToks ms ++ [.rbrace])

/-- Tokens of a sequence of array elements. -/
def jsonListToks : JsonList → List Tok
  | .nil => []
  | .cons j rest => Json.toks j ++ jsonListToks rest

/-- Tokens of a sequence of object members. -/
def jsonMembersToks : JsonMembers → List Tok
  | .nil => []
  | .cons k j rest => .str k :: (Json.toks j ++ jsonMembersToks rest)
end

theorem token_of_avail {s : DecodeState} {t : Tok} {l : List Tok}
    (h : s.avail = some (t :: l)) : s.token = (.ok t, ⟨l, none⟩) := by
  obtain ⟨toks, buf⟩ := s
  match buf with
  | none =>
    simp only [DecodeState.avail] at h
    obtain rfl : toks = t :: l := by simpa using h
    rfl
  | some (.ok t0) =>
    simp only [DecodeState.avail] at h
    obtain ⟨rfl, rfl⟩ : t0 = t ∧ toks = l := by
      constructor <;> simp_all
    simp [DecodeState.token]
  | some (.error e) =>
    simp [DecodeState.avail] at h

theorem nextToken_of_avail {s : DecodeState} {t : Tok} {l : List Tok}
    (h : s.avail = some (t :: l)) : s.nextToken = (.ok t, ⟨l, some (.ok t)⟩) := by
  obtain ⟨toks, buf⟩ := s
  match buf with
  | none =>
    simp only [DecodeState.avail] at h
    obtain rfl : toks = t :: l := by simpa using h
    rfl
  | some (.ok t0) =>
    simp only [DecodeState.avail] at h
    obtain ⟨rfl, rfl⟩ : t0 = t ∧ toks = l := by
      constructor <;> simp_all
    simp [DecodeState.nextToken]
  | some (.error e) =>
    simp [DecodeState.avail] at h

theorem indirect_of_kind_ne_ptr {v : GoValue} (dn : Bool)
    (h : v.kind ≠ Kind.kptr) : indirect v dn = (v, 0) := by
  cases v <;> simp_all [GoValue.kind, indirect, GoValue.typeOf, indirectT]
  case vstruct nm fs =>
    cases FieldVals.typesOf fs <;> simp [indirectT]

/-- C9.  A call to the public entry point whose destination argument is not
a non-nil pointer fails with the invalid-destination error
(`json.InvalidUnmarshalError`) before any token is read: the returned
decoder state still holds the whole token stream and an empty pushback
slot, and the destination is untouched. -/
theorem c9_invalid_destination (checker : Checker) (fuel : Nat) (toks : List Tok)
    (into : GoValue) (schema : Option Schema)
    (h : ∀ t pv, into ≠ GoValue.vptrTo t pv) :
    ValidateParse checker fuel toks into schema =
      .err ⟨toks, none⟩ into .invalidUnmarshal := by
  cases into <;> first
    | rfl
    | exact absurd rfl (h _ _)

/-- Witness for C9 at a concrete non-pointer destination. -/
theorem c9_witness :
    ValidateParse (fun _ _ => true) 5 [Tok.lbrace] (GoValue.vstring "x") none =
      .err ⟨[Tok.lbrace], none⟩ (GoValue.vstring "x") .invalidUnmarshal :=
  c9_invalid_destination _ 5 _ _ none (by intro t pv hc; exact GoValue.noConfusion hc)


/-- C2, counterexample.  A scalar that fails with a structural mismatch can
leave the destination changed: for a `*bool` destination that is nil, the
decode of a string token first resolves indirection — allocating the
pointer — and only then fails, so the destination after the error is an
allocated pointer, not the original nil pointer.  This refutes the claim
that the destination's prior state is entirely unchanged, including no
allocation of intermediate pointer layers. -/
theorem c2_counterexample :
    decodeValue (fun _ _ => true)
      ⟨some (Schema.mk ["string"] [] none none), .vptrNil .tbool, []⟩ (.str "x") =
      .errv (.vptrTo .tbool (.vbool false)) (.stringMismatch .kbool) ∧
    GoValue.vptrTo .tbool (.vbool false) ≠ GoValue.vptrNil .tbool :=
  ⟨rfl, by simp⟩

/-- C2 (amended).  When `decodeValue` returns a structural-mismatch or
constraint-violation error for a scalar, no write of the scalar value has
happened: the destination returned with the error is exactly the result of
indirection resolution (which may have allocated empty pointer layers
before validation ran), and for a destination that is not of pointer kind
the prior state is entirely unchanged. -/
theorem c2_no_write_before_scalar_error (checker : Checker) (baton : Baton)
    (token : Tok) (v2 : GoValue) (e : GoErr)
    (h : decodeValue checker baton token = .errv v2 e) :
    v2 = (indirect baton.into false).fst ∧
      (baton.into.kind ≠ Kind.kptr → v2 = baton.into) := by
  have hv : v2 = (indirect baton.into false).fst := by
    simp only [decodeValue] at h
    repeat' split at h
    all_goals simp_all
  exact ⟨hv, fun hk => by rw [hv, indirect_of_kind_ne_ptr false hk]⟩

/-- Witness for C2 at a concrete failing scalar decode: a string token
against a bool destination fails with a structural mismatch and the
non-pointer destination is unchanged. -/
theorem c2_witness :
    GoValue.vbool true = (indirect (GoValue.vbool true) false).fst ∧
      ((GoValue.vbool true).kind ≠ Kind.kptr →
        GoValue.vbool true = GoValue.vbool true) :=
  c2_no_write_before_scalar_error (fun _ _ => true)
    ⟨some (Schema.mk ["string"] [] none none), .vbool true, []⟩ (.str "x")
    (.vbool true) (.stringMismatch .kbool) rfl

/-- C6, counterexample.  A null token under a present schema does not set
the destination to the empty/absent state: `decodeValue` returns before
resolving or touching the destination, so a pre-populated optional string
field (`*string` pointing at "old") is still populated after decoding
`null` into it, not absent. -/
theorem c6_counterexample :
    ValidateParse (fun _ _ => true) 20 [.lbrace, .str "nullValue", .null, .rbrace]
      (.vptrTo (.tstruct "P" (.cons "NullValue" (some "nullValue") (.tptr .tstring) .nil))
        (.vstruct "P" (.cons "NullValue" (some "nullValue")
          (.vptrTo .tstring (.vstring "old")) .nil)))
      (some (Schema.mk ["object"] [("nullValue", Schema.mk ["string"] [] none none)] none none)) =
    .ok ⟨[], none⟩
      (.vptrTo (.tstruct "P" (.cons "NullValue" (some "nullValue") (.tptr .tstring) .nil))
        (.vstruct "P" (.cons "NullValue" (some "nullValue")
          (.vptrTo .tstring (.vstring "old")) .nil))) ∧
    GoValue.vptrTo .tstring (.vstring "old") ≠ GoValue.vptrNil .tstring :=
  ⟨rfl, by simp⟩

/-- C6 (amended).  A null token decoded under any schema (present or not)
returns success immediately with the destination left exactly in its prior
state: no resolution, no write, no scalar conversion (an absent optional
field therefore stays absent).  In particular decoding
`{"setValue":"set","nullValue":null}` into a destination with three
optional (pointer) string fields `omit`, `nullValue`, `setValue` succeeds
with `omit` absent, `nullValue` absent (not an empty string), and
`setValue` present with value "set". -/
theorem c6_null_leaves_destination :
    (∀ (checker : Checker) (baton : Baton),
      decodeValue checker baton .null = .okv baton.into) ∧
    ValidateParse (fun _ _ => true) 20
      [.lbrace, .str "setValue", .str "set", .str "nullValue", .null, .rbrace]
      (.vptrTo (.tstruct "P"
          (.cons "Omit" (some "omit") (.tptr .tstring)
          (.cons "NullValue" (some "nullValue") (.tptr .tstring)
          (.cons "SetValue" (some "setValue") (.tptr .tstring) .nil))))
        (zeroValue (.tstruct "P"
          (.cons "Omit" (some "omit") (.tptr .tstring)
          (.cons "NullValue" (some "nullValue") (.tptr .tstring)
          (.cons "SetValue" (some "setValue") (.tptr .tstring) .nil))))))
      (some (Schema.mk ["object"]
        [("omit", Schema.mk ["string"] [] none none),
         ("nullValue", Schema.mk ["string"] [] none none),
         ("setValue", Schema.mk ["string"] [] none none)] none none)) =
    .ok ⟨[], none⟩
      (.vptrTo (.tstruct "P"
          (.cons "Omit" (some "omit") (.tptr .tstring)
          (.cons "NullValue" (some "nullValue") (.tptr .tstring)
          (.cons "SetValue" (some "setValue") (.tptr .tstring) .nil))))
        (.vstruct "P"
          (.cons "Omit" (some "omit") (.vptrNil .tstring)
          (.cons "NullValue" (some "nullValue") (.vptrNil .tstring)
          (.cons "SetValue" (some "setValue")
            (.vptrTo .tstring (.vstring "set")) .nil))))) := by
  constructor
  · intro checker baton
    obtain ⟨osch, into, path⟩ := baton
    cases osch with
    | none => rfl
    | some sch => by_cases h : into.isValid <;> simp [decodeValue, h]
  · rfl

/-- C8, counterexample.  The engine does not itself verify that the
schema's type set contains `string` for a string token: against a schema
whose type set is only `integer`, with a passing external checker, a string
token is bound successfully into a string destination — no
structural-mismatch error is returned and the write happens. -/
theorem c8_counterexample :
    decodeValue (fun _ _ => true)
      ⟨some (Schema.mk ["integer"] [] none none), .vstring "", []⟩ (.str "x") =
      .okv (.vstring "x") ∧
    (Schema.mk ["integer"] [] none none).typeContains "string" = false :=
  ⟨rfl, rfl⟩

/-- C8 (amended).  The engine itself verifies type-set membership only for
number tokens (the type set must contain `number` or `integer`) and boolean
tokens (the type set must contain `boolean`), returning an error before any
write even when the external checker passed; for string tokens it checks
only the destination's kind and relies entirely on the external checker for
type-set verification, binding the string whenever the checker passes and
the destination is a string. -/
theorem c8_engine_type_set_checks :
    (∀ (checker : Checker) (sch : Schema) (v : GoValue) (path : List String) (q : Rat),
      checker sch (.num q) = true → v.isValid = true →
      sch.typeContains "number" = false → sch.typeContains "integer" = false →
      decodeValue checker ⟨some sch, v, path⟩ (.num q) =
        .errv (indirect v false).fst .unexpectedNumber) ∧
    (∀ (checker : Checker) (sch : Schema) (v : GoValue) (path : List String) (b : Bool),
      checker sch (.bool b) = true → v.isValid = true →
      sch.typeContains "boolean" = false →
      decodeValue checker ⟨some sch, v, path⟩ (.bool b) =
        .errv (indirect v false).fst (.boolSchemaCast sch.type)) ∧
    (∀ (checker : Checker) (sch : Schema) (path : List String) (sv prior : String),
      checker sch (.str sv) = true →
      decodeValue checker ⟨some sch, .vstring prior, path⟩ (.str sv) =
        .okv (.vstring sv)) := by
  refine ⟨?_, ?_, ?_⟩
  · intro checker sch v path q hc hval hn hi
    simp [decodeValue, hc, hval, hn, hi]
  · intro checker sch v path b hc hval hb
    simp [decodeValue, hc, hval, hb]
  · intro checker sch path sv prior hc
    simp [decodeValue, hc, GoValue.isValid, indirect, GoValue.typeOf, indirectT,
      derefN, GoValue.kind, reflectSet, putN]

/-- Witness for C8 at concrete inputs: a number token against a
boolean-only type set errors, a boolean token against a string-only type
set errors, and a string token against an integer-only type set binds. -/
theorem c8_witness :
    decodeValue (fun _ _ => true)
      ⟨some (Schema.mk ["boolean"] [] none none), .vint .i64 0, []⟩ (.num 1) =
      .errv (indirect (GoValue.vint .i64 0) false).fst .unexpectedNumber ∧
    decodeValue (fun _ _ => true)
      ⟨some (Schema.mk ["string"] [] none none), .vbool false, []⟩ (.bool true) =
      .errv (indirect (GoValue.vbool false) false).fst
        (.boolSchemaCast (Schema.mk ["string"] [] none none).type) ∧
    decodeValue (fun _ _ => true)
      ⟨some (Schema.mk ["integer"] [] none none), .vstring "p", []⟩ (.str "q") =
      .okv (.vstring "q") :=
  ⟨c8_engine_type_set_checks.1 _ _ _ _ _ rfl rfl rfl rfl,
   c8_engine_type_set_checks.2.1 _ _ _ _ _ rfl rfl rfl,
   c8_engine_type_set_checks.2.2 _ _ _ _ _ rfl⟩

/-- C10, counterexample.  A `uintptr` destination is not in the dispatch
range `reflect.Int <= kind <= reflect.Uint64` (its kind code is 12, the
range ends at 11), so binding a number token to it does not reach a reflect
`Set` and does not panic: `decodeValue` returns the
"Unable to cast json number to uintptr" error value.  This refutes the
claim's inclusion of `uintptr` among the kinds that reach an unassignable
`Set` and panic. -/
theorem c10_counterexample :
    decodeValue (fun _ _ => true)
      ⟨some (Schema.mk ["number"] [] none none), .vint .uptr 0, []⟩ (.num 1) =
      .errv (.vint .uptr 0) (.numberCast (.kint .uptr)) :=
  rfl

/-- C10 (amended).  Binding a JSON number token completes normally only
when the resolved destination's kind is exactly `float64` or `int64`.  For
the other numeric kinds inside the dispatch range — `int`, `int8`, `int16`,
`int32`, `uint`, `uint8`, `uint16`, `uint32`, `uint64` (once the token
converts to `int64`) — and for `float32`, `decodeValue` reaches a reflect
`Set` of an unassignable `int64`/`float64` value and panics instead of
returning an error.  `uintptr` lies outside the dispatch range and returns
the cast error value. -/
theorem c10_number_binding_totality :
    (∀ (checker : Checker) (sch : Schema) (path : List String) (q : Rat)
        (ik : IntKind) (n m : Int),
      checker sch (.num q) = true → sch.typeContains "number" = true →
      2 ≤ ik.code → ik.code ≤ 11 → ik ≠ .i64 → jnumInt64 q = .ok m →
      decodeValue checker ⟨some sch, .vint ik n, path⟩ (.num q) =
        .crash "reflect.Set: int64 value not assignable") ∧
    (∀ (checker : Checker) (sch : Schema) (path : List String) (q : Rat) (x : Rat),
      checker sch (.num q) = true → sch.typeContains "number" = true →
      decodeValue checker ⟨some sch, .vfloat32 x, path⟩ (.num q) =
        .crash "reflect.Set: float64 value not assignable") ∧
    (∀ (checker : Checker) (sch : Schema) (path : List String) (q : Rat) (n m : Int),
      checker sch (.num q) = true → sch.typeContains "number" = true →
      jnumInt64 q = .ok m →
      decodeValue checker ⟨some sch, .vint .i64 n, path⟩ (.num q) =
        .okv (.vint .i64 m)) ∧
    (∀ (checker : Checker) (sch : Schema) (path : List String) (q : Rat) (x : Rat),
      checker sch (.num q) = true → sch.typeContains "number" = true →
      decodeValue checker ⟨some sch, .vfloat64 x, path⟩ (.num q) =
        .okv (.vfloat64 q)) ∧
    (∀ (checker : Checker) (sch : Schema) (path : List String) (q : Rat) (n : Int),
      checker sch (.num q) = true → sch.typeContains "number" = true →
      decodeValue checker ⟨some sch, .vint .uptr n, path⟩ (.num q) =
        .errv (.vint .uptr n) (.numberCast (.kint .uptr))) := by
  refine ⟨?_, ?_, ?_, ?_, ?_⟩
  · intro checker sch path q ik n m hc hn h2 h11 hne hm
    have hik : (GoType.tint .i64 = GoType.tint ik) = False := by
      simp [GoType.tint.injEq]
      exact fun hh => hne hh.symm
    simp [decodeValue, hc, hn, GoValue.isValid, indirect, GoValue.typeOf, indirectT,
      derefN, GoValue.kind, Kind.code, h2, h11, hm, reflectSet, hik]
  · intro checker sch path q x hc hn
    simp [decodeValue, hc, hn, GoValue.isValid, indirect, GoValue.typeOf, indirectT,
      derefN, GoValue.kind, jnumFloat64, reflectSet]
  · intro checker sch path q n m hc hn hm
    simp [decodeValue, hc, hn, GoValue.isValid, indirect, GoValue.typeOf, indirectT,
      derefN, GoValue.kind, Kind.code, IntKind.code, hm, reflectSet, putN]
  · intro checker sch path q x hc hn
    simp [decodeValue, hc, hn, GoValue.isValid, indirect, GoValue.typeOf, indirectT,
      derefN, GoValue.kind, jnumFloat64, reflectSet, putN]
  · intro checker sch path q n hc hn
    simp [decodeValue, hc, hn, GoValue.isValid, indirect, GoValue.typeOf, indirectT,
      derefN, GoValue.kind, Kind.code, IntKind.code]

/-- Witness for C10 at concrete inputs: an `int` destination panics, a
`float32` destination panics, an `int64` destination binds, a `float64`
destination binds, and a `uintptr` destination returns an error value. -/
theorem c10_witness :
    decodeValue (fun _ _ => true)
      ⟨some (Schema.mk ["number"] [] none none), .vint .iint 0, []⟩ (.num 7) =
      .crash "reflect.Set: int64 value not assignable" ∧
    decodeValue (fun _ _ => true)
      ⟨some (Schema.mk ["number"] [] none none), .vfloat32 0, []⟩ (.num 7) =
      .crash "reflect.Set: float64 value not assignable" ∧
    decodeValue (fun _ _ => true)
      ⟨some (Schema.mk ["number"] [] none none), .vint .i64 0, []⟩ (.num 7) =
      .okv (.vint .i64 7) ∧
    decodeValue (fun _ _ => true)
      ⟨some (Schema.mk ["number"] [] none none), .vfloat64 0, []⟩ (.num 7) =
      .okv (.vfloat64 7) ∧
    decodeValue (fun _ _ => true)
      ⟨some (Schema.mk ["number"] [] none none), .vint .uptr 5, []⟩ (.num 7) =
      .errv (.vint .uptr 5) (.numberCast (.kint .uptr)) :=
  ⟨c10_number_binding_totality.1 _ _ _ _ .iint _ 7 rfl rfl (by decide) (by decide)
      (by decide) (by decide),
   c10_number_binding_totality.2.1 _ _ _ _ _ rfl rfl,
   c10_number_binding_totality.2.2.1 _ _ _ _ _ 7 rfl rfl (by decide),
   c10_number_binding_totality.2.2.2.1 _ _ _ _ _ rfl rfl,
   c10_number_binding_totality.2.2.2.2 _ _ _ _ _ rfl rfl⟩


theorem fldSet_get : ∀ (flds : FieldVals) (i : Nat), fldSet flds i (fldGet flds i) = flds
  | .nil, _ => rfl
  | .cons _ _ _ _, 0 => rfl
  | .cons nm tag v rest, n + 1 => by simp [fldGet, fldSet, fldSet_get rest n]

/-- Skipping a scalar or null value under a nil schema: the token is
consumed, the call succeeds, and the destination is returned untouched
(`decodeValue` returns before validating or binding anything). -/
theorem decodeAnything_none_schema_scalar (checker : Checker) (fuel : Nat)
    (s : DecodeState) (baton : Baton) (t : Tok) (l : List Tok)
    (hsch : baton.schema = none) (h : s.avail = some (t :: l))
    (h1 : t ≠ .lbrace) (h2 : t ≠ .lbrack) (h3 : t ≠ .rbrace) (h4 : t ≠ .rbrack) :
    decodeAnything checker (fuel + 1) s baton = .ok ⟨l, none⟩ baton.into := by
  simp only [decodeAnything]
  rw [token_of_avail h]
  cases t <;> simp_all [decodeValue, liftV]

/-- C3, counterexample.  A JSON object decoded under a Bind Context whose
schema is nil is not consumed and discarded: `decodeObject` immediately
dereferences the nil schema (`baton.schema.Type.Contains("object")`) and
panics, so the decode neither consumes the value nor returns success. -/
theorem c3_counterexample :
    decodeAnything (fun _ _ => true) 5 ⟨[.lbrace, .rbrace], none⟩
      ⟨none, .vstring "", []⟩ =
      .crash "runtime error: invalid memory address or nil pointer dereference" :=
  rfl

/-- C3 (amended).  Under a Bind Context whose schema is nil, a scalar or
null value is consumed (one token), the decode returns success, and nothing
is validated or bound — the destination is returned untouched.  An object
or array value under a nil schema instead panics: `decodeObject` /
`decodeArray` dereference the nil schema (after `decodeObject`'s trace line
has already called `Type()` on the destination, which panics first when the
destination is absent). -/
theorem c3_nil_schema_skip :
    (∀ (checker : Checker) (fuel : Nat) (s : DecodeState) (baton : Baton)
        (t : Tok) (l : List Tok),
      baton.schema = none → s.avail = some (t :: l) →
      t ≠ .lbrace → t ≠ .lbrack → t ≠ .rbrace → t ≠ .rbrack →
      decodeAnything checker (fuel + 1) s baton = .ok ⟨l, none⟩ baton.into) ∧
    (∀ (checker : Checker) (fuel : Nat) (s : DecodeState) (baton : Baton)
        (l : List Tok),
      baton.schema = none → s.avail = some (.lbrace :: l) →
      ∃ m, decodeAnything checker (fuel + 1) s baton = .crash m) ∧
    (∀ (checker : Checker) (fuel : Nat) (s : DecodeState) (baton : Baton)
        (l : List Tok),
      baton.schema = none → s.avail = some (.lbrack :: l) →
      ∃ m, decodeAnything checker (fuel + 1) s baton = .crash m) := by
  refine ⟨fun ch fuel s baton t l hsch h h1 h2 h3 h4 =>
      decodeAnything_none_schema_scalar ch fuel s baton t l hsch h h1 h2 h3 h4,
    ?_, ?_⟩
  · intro ch fuel s baton l hsch h
    simp only [decodeAnything]
    rw [token_of_avail h]
    cases hty : baton.into.typeOf with
    | none =>
      exact ⟨"reflect: call of reflect.Value.Type on zero Value",
        by simp [objSetup, hsch, hty]⟩
    | some tt =>
      exact ⟨"runtime error: invalid memory address or nil pointer dereference",
        by simp [objSetup, hsch, hty]⟩
  · intro ch fuel s baton l hsch h
    simp only [decodeAnything]
    rw [token_of_avail h]
    exact ⟨"runtime error: invalid memory address or nil pointer dereference",
      by simp [arrSetup, hsch]⟩

/-- Witness for C3 at concrete inputs: a scalar under a nil schema is
consumed and skipped; an object under a nil schema panics. -/
theorem c3_witness :
    decodeAnything (fun _ _ => true) 5 ⟨[.str "foo"], none⟩
      ⟨none, .vstring "prior", []⟩ = .ok ⟨[], none⟩ (.vstring "prior") ∧
    ∃ m, decodeAnything (fun _ _ => true) 5 ⟨[.lbrace, .rbrace], none⟩
      ⟨none, .vbool false, []⟩ = .crash m :=
  ⟨c3_nil_schema_skip.1 _ 4 _ _ _ _ rfl rfl (by decide) (by decide) (by decide)
      (by decide),
   c3_nil_schema_skip.2.1 _ 4 _ _ _ rfl rfl⟩

/-- C7, counterexample.  An unknown property whose value is an object,
decoded with additional properties allowed, is not consumed-but-unbound:
the nil-schema child context panics on the nil schema dereference, so the
decode of `{"extra":{}}` crashes instead of proceeding. -/
theorem c7_counterexample :
    ValidateParse (fun _ _ => true) 20 [.lbrace, .str "extra", .lbrace, .rbrace, .rbrace]
      (.vptrTo (.tstruct "TestStruct" (.cons "Extra" (some "extra") .tstring .nil))
        (zeroValue (.tstruct "TestStruct" (.cons "Extra" (some "extra") .tstring .nil))))
      (some (Schema.mk ["object"] [("string", Schema.mk ["string"] [] none none)]
        none (some true))) =
      .crash "runtime error: invalid memory address or nil pointer dereference" :=
  rfl

/-- C7 (amended).  During object decoding, a key with no child schema in
the properties map fails with an unknown-property error naming the key
(wrapped with the path by enclosing frames) when additional properties are
not allowed, with the destination unchanged; when additional properties are
allowed, a scalar or null value for such a key is decoded under a nil-schema
child context — consumed, never bound, destination unchanged even when the
key matches a destination field.  (An object or array value under the
nil-schema child context panics instead.) -/
theorem c7_unknown_property_policy :
    (∀ (checker : Checker) (fuel : Nat) (s : DecodeState) (rest : List Tok)
        (key nm : String) (flds : FieldVals) (fts : StructFields)
        (sch : Schema) (path : List String),
      s.avail = some (.lbrace :: .str key :: rest) →
      FieldVals.typesOf flds = some fts →
      lookupProp sch.properties key = none →
      (sch.additionalProperties = none ∨ sch.additionalProperties = some false) →
      sch.typeContains "object" = true →
      decodeAnything checker (fuel + 2) s ⟨some sch, .vstruct nm flds, path⟩ =
        .err ⟨rest, none⟩ (.vstruct nm flds) (.unknownProperty key)) ∧
    (∀ (checker : Checker) (fuel : Nat) (s : DecodeState) (rest : List Tok)
        (key nm : String) (flds : FieldVals) (fts : StructFields)
        (sch : Schema) (path : List String) (t : Tok),
      s.avail = some (.lbrace :: .str key :: t :: .rbrace :: rest) →
      FieldVals.typesOf flds = some fts →
      lookupProp sch.properties key = none →
      sch.additionalProperties = some true →
      sch.typeContains "object" = true →
      t ≠ .lbrace → t ≠ .lbrack → t ≠ .rbrace → t ≠ .rbrack →
      decodeAnything checker (fuel + 3) s ⟨some sch, .vstruct nm flds, path⟩ =
        .ok ⟨rest, none⟩ (.vstruct nm flds)) := by
  constructor
  · intro ch fuel s rest key nm flds fts sch path h hfts hlook haddl hobj
    simp only [decodeAnything]
    rw [token_of_avail h]
    simp only [objSetup, GoValue.typeOf, hfts, hobj, Bool.not_true, Bool.false_eq_true,
      if_false, indirect, indirectT, derefN]
    simp only [objLoop, DecodeState.token, putN]
    have hne : (Tok.str key = Tok.rbrace) = False := by simp
    rcases haddl with ha | ha <;>
      simp [hne, hlook, ha]
  · intro ch fuel s rest key nm flds fts sch path t h hfts hlook haddl hobj h1 h2 h3 h4
    simp only [decodeAnything]
    rw [token_of_avail h]
    simp only [objSetup, GoValue.typeOf, hfts, hobj, Bool.not_true, Bool.false_eq_true,
      if_false, indirect, indirectT, derefN]
    simp only [objLoop, DecodeState.token, putN]
    have hne : (Tok.str key = Tok.rbrace) = False := by simp
    have hchild := decodeAnything_none_schema_scalar ch fuel
      ⟨t :: Tok.rbrace :: rest, none⟩
      ⟨none, (match (match mapGet (buildFieldMaps flds).fst key with
               | some i => some i
               | none => mapGet (buildFieldMaps flds).snd (goToLower key)) with
              | some i => fldGet flds i
              | none => GoValue.vinvalid), path ++ [key]⟩
      t (Tok.rbrace :: rest) rfl rfl h1 h2 h3 h4
    simp only [hne, hlook, haddl, if_false]
    cases hfi : (match mapGet (buildFieldMaps flds).fst key with
               | some i => some i
               | none => mapGet (buildFieldMaps flds).snd (goToLower key)) with
    | some i =>
      simp only [hfi] at hchild
      simp [hfi, hchild, objLoop, DecodeState.token, fldSet_get, putN]
    | none =>
      simp only [hfi] at hchild
      simp [hfi, hchild, objLoop, DecodeState.token, putN]

/-- Witness for C7 at the spec's own test inputs: `{"missing":"foo"}`
against a schema with additional properties disallowed errors with
UnknownProperty, and the same document with additional properties allowed
succeeds with the destination unchanged. -/
theorem c7_witness :
    decodeAnything (fun _ _ => true) 10 ⟨[.lbrace, .str "missing", .str "foo", .rbrace], none⟩
      ⟨some (Schema.mk ["object"] [("string", Schema.mk ["string"] [] none none)] none none),
       .vstruct "TestStruct" (.cons "Extra" (some "extra") (.vstring "") .nil), []⟩ =
      .err ⟨[.str "foo", .rbrace], none⟩
        (.vstruct "TestStruct" (.cons "Extra" (some "extra") (.vstring "") .nil))
        (.unknownProperty "missing") ∧
    decodeAnything (fun _ _ => true) 10 ⟨[.lbrace, .str "missing", .str "foo", .rbrace], none⟩
      ⟨some (Schema.mk ["object"] [("string", Schema.mk ["string"] [] none none)] none (some true)),
       .vstruct "TestStruct" (.cons "Extra" (some "extra") (.vstring "") .nil), []⟩ =
      .ok ⟨[], none⟩
        (.vstruct "TestStruct" (.cons "Extra" (some "extra") (.vstring "") .nil)) :=
  ⟨c7_unknown_property_policy.1 _ 8 _ _ _ _ _
      (.cons "Extra" (some "extra") .tstring .nil) _ _ rfl rfl rfl (.inl rfl) rfl,
   c7_unknown_property_policy.2 _ 7 _ _ _ _ _
      (.cons "Extra" (some "extra") .tstring .nil) _ _ _ rfl rfl rfl rfl rfl
      (by decide) (by decide) (by decide) (by decide)⟩


theorem reflectSet_eq_some {cur x y : GoValue} (h : reflectSet cur x = some y) :
    y = x := by
  unfold reflectSet at h
  repeat' split at h
  all_goals simp_all

theorem arrLoop_atomic (checker : Checker) (sch : Schema) (itemType : GoType)
    (baton : Baton) :
    ∀ (fuel : Nat) (s : DecodeState) (acc : GoValue) (idx : Nat),
      (∀ s2 v2 e, arrLoop checker fuel s sch itemType baton acc idx = .err s2 v2 e →
        v2 = baton.into) ∧
      (∀ s2 v2, arrLoop checker fuel s sch itemType baton acc idx = .ok s2 v2 →
        ∃ ws : List GoValue, goAppendAll acc ws = some v2) := by
  intro fuel
  induction fuel with
  | zero =>
    intro s acc idx
    constructor <;> intro s2 v2 <;> intros <;> simp_all [arrLoop]
  | succ n ih =>
    intro s acc idx
    constructor
    · intro s2 v2 e h
      simp only [arrLoop] at h
      repeat' split at h
      all_goals first
        | simp_all
        | exact (ih _ _ _).1 _ _ _ h
    · intro s2 v2 h
      rcases hpk : s.nextToken with ⟨res, s1⟩
      simp only [arrLoop, hpk] at h
      cases res with
      | error e0 => simp only [] at h; exact absurd h (by simp)
      | ok t =>
        dsimp only at h
        by_cases hrb : t = Tok.rbrack
        · simp only [hrb, if_pos] at h
          rcases hrs : reflectSet baton.into acc with _ | into2 <;> rw [hrs] at h
          · exact absurd h (by simp)
          · simp only [DRes.ok.injEq] at h
            refine ⟨[], ?_⟩
            simp [goAppendAll, ← h.2, reflectSet_eq_some hrs]
        · rw [if_neg hrb] at h
          rcases hit : sch.items with _ | fs <;> rw [hit] at h
          · exact absurd h (by simp)
          · dsimp only at h
            rcases hch : decodeAnything checker n s1
                ⟨fs, GoValue.vptrTo itemType (zeroValue itemType),
                  baton.path ++ [toString idx]⟩ with ⟨s3, fv⟩ | ⟨s3, fv, e0⟩ | m <;>
              (rw [hch] at h; try dsimp only at h)
            · cases fv with
              | vptrTo te fe =>
                dsimp only at h
                rcases hap : goAppend acc fe with _ | acc2 <;> rw [hap] at h
                · exact absurd h (by simp)
                · obtain ⟨ws, hws⟩ := (ih s3 acc2 (idx + 1)).2 _ _ h
                  exact ⟨fe :: ws, by simp [goAppendAll, hap, hws]⟩
              | vbool b => exact absurd h (by simp)
              | vstring sv => exact absurd h (by simp)
              | vint ik n0 => exact absurd h (by simp)
              | vfloat32 x => exact absurd h (by simp)
              | vfloat64 x => exact absurd h (by simp)
              | vptrNil te => exact absurd h (by simp)
              | vslice te xs => exact absurd h (by simp)
              | vstruct nm fl => exact absurd h (by simp)
              | vinvalid => exact absurd h (by simp)
            · exact absurd h (by simp)
            · exact absurd h (by simp)
  
/-- C4.  During array decoding the elements are accumulated locally: the
destination is only assigned at the success path where the closing
delimiter is peeked and consumed, so (i) if the array decode returns an
error — a failed element decode included — the destination is exactly the
value passed in, untouched, and (ii) on success the destination holds the
initial sequence extended by the decoded elements appended one at a time in
input order (a single atomic assignment of the accumulator). -/
theorem c4_array_atomicity (checker : Checker) (fuel : Nat) (s : DecodeState)
    (baton : Baton) :
    (∀ s2 v2 e, decodeArray checker fuel s baton = .err s2 v2 e → v2 = baton.into) ∧
    (∀ s2 v2, decodeArray checker fuel s baton = .ok s2 v2 →
      ∃ ws : List GoValue, goAppendAll baton.into ws = some v2) := by
  constructor
  · intro s2 v2 e h
    simp only [decodeArray] at h
    split at h
    · exact absurd h (by simp)
    · simp only [DRes.err.injEq] at h
      exact h.2.1.symm
    · exact (arrLoop_atomic checker _ _ baton fuel s baton.into 0).1 _ _ _ h
  · intro s2 v2 h
    simp only [decodeArray] at h
    split at h
    · exact absurd h (by simp)
    · exact absurd h (by simp)
    · exact (arrLoop_atomic checker _ _ baton fuel s baton.into 0).2 _ _ h

/-- Witness for C4: a successful concrete array decode of `["a","b"]` into
an empty string slice yields the two elements appended in input order, and
a failing decode (a number element against a string item schema) leaves the
destination slice untouched. -/
theorem c4_witness :
    (∃ ws : List GoValue,
      goAppendAll (GoValue.vslice .tstring .nil) ws =
        some (.vslice .tstring (.cons (.vstring "a") (.cons (.vstring "b") .nil)))) ∧
    GoValue.vslice .tstring .nil = GoValue.vslice .tstring .nil :=
  ⟨(c4_array_atomicity (fun _ _ => true) 10 ⟨[.str "a", .str "b", .rbrack], none⟩
      ⟨some (Schema.mk ["array"] [] (some (some (Schema.mk ["string"] [] none none))) none),
        .vslice .tstring .nil, []⟩).2 ⟨[], none⟩
      (.vslice .tstring (.cons (.vstring "a") (.cons (.vstring "b") .nil))) rfl,
   (c4_array_atomicity (fun _ _ => true) 10 ⟨[.num 1, .rbrack], none⟩
      ⟨some (Schema.mk ["array"] [] (some (some (Schema.mk ["string"] [] none none))) none),
        .vslice .tstring .nil, []⟩).1 ⟨[.rbrack], none⟩
      (.vslice .tstring .nil) (.wrap ["0"] .unexpectedNumber) rfl⟩

/-- C5.  The decode of the `TestPointerToArray` document
`{"arr":["a","b"]}` into a destination whose `arr` field is a pointer to a
slice (`*[]string`): contrary to the test's expectation of success,
`decodeArray` computes the element type as `Type().Elem()` of the pointer
type — the slice type `[]string` — without resolving the destination's
indirection, so the first string element meets a slice-kind fresh
destination and the decode fails with a structural mismatch at path
`arr.0`, the `arr` field still the nil pointer. -/
theorem c5_pointer_to_slice_fails :
    ValidateParse (fun _ _ => true) 20
      [.lbrace, .str "arr", .lbrack, .str "a", .str "b", .rbrack, .rbrace]
      (.vptrTo (.tstruct "S" (.cons "Arr" none (.tptr (.tslice .tstring)) .nil))
        (zeroValue (.tstruct "S" (.cons "Arr" none (.tptr (.tslice .tstring)) .nil))))
      (some (Schema.mk ["object"]
        [("arr", Schema.mk ["array"] []
          (some (some (Schema.mk ["string"] [] none none))) none)]
        none none)) =
      .err ⟨[.str "b", .rbrack, .rbrace], none⟩
        (.vptrTo (.tstruct "S" (.cons "Arr" none (.tptr (.tslice .tstring)) .nil))
          (.vstruct "S" (.cons "Arr" none (.vptrNil (.tslice .tstring)) .nil)))
        (.wrap ["arr"] (.wrap ["arr", "0"] (.stringMismatch .kslice))) :=
  rfl


theorem toks_head (j : Json) :
    ∃ t l, Json.toks j = t :: l ∧ t ≠ Tok.rbrack ∧ t ≠ Tok.rbrace := by
  cases j with
  | jstr s => exact ⟨Tok.str s, [], by simp [Json.toks], by simp, by simp⟩
  | jnum q => exact ⟨Tok.num q, [], by simp [Json.toks], by simp, by simp⟩
  | jbool b => exact ⟨Tok.bool b, [], by simp [Json.toks], by simp, by simp⟩
  | jnull => exact ⟨Tok.null, [], by simp [Json.toks], by simp, by simp⟩
  | jarr es =>
    exact ⟨Tok.lbrack, jsonListToks es ++ [Tok.rbrack], by simp [Json.toks],
      by simp, by simp⟩
  | jobj ms =>
    exact ⟨Tok.lbrace, jsonMembersToks ms ++ [Tok.rbrace], by simp [Json.toks],
      by simp, by simp⟩

/-- The heart of single consumption, by induction on the fuel: whenever a
decode call succeeds on a stream whose available tokens are the serialized
form of one JSON value (or of the remaining elements/members of the open
array/object, for the loops) followed by `rest`, the final decoder state
holds exactly `rest` with an empty pushback slot: every token of the value
was consumed exactly once and nothing beyond it was read. -/
theorem consumes_exactly (checker : Checker) :
    ∀ fuel : Nat,
      (∀ (j : Json) (rest : List Tok) (s : DecodeState) (baton : Baton)
          (s2 : DecodeState) (v2 : GoValue),
        s.avail = some (Json.toks j ++ rest) →
        decodeAnything checker fuel s baton = .ok s2 v2 → s2 = ⟨rest, none⟩) ∧
      (∀ (es : JsonList) (rest : List Tok) (s : DecodeState) (sch : Schema)
          (itemType : GoType) (baton : Baton) (acc : GoValue) (idx : Nat)
          (s2 : DecodeState) (v2 : GoValue),
        s.avail = some (jsonListToks es ++ Tok.rbrack :: rest) →
        arrLoop checker fuel s sch itemType baton acc idx = .ok s2 v2 →
        s2 = ⟨rest, none⟩) ∧
      (∀ (ms : JsonMembers) (rest : List Tok) (s : DecodeState) (sch : Schema)
          (baton : Baton) (v1 : GoValue) (d : Nat) (nm : String) (flds : FieldVals)
          (tagMap backMap : List (String × Nat)) (s2 : DecodeState) (v2 : GoValue),
        s.avail = some (jsonMembersToks ms ++ Tok.rbrace :: rest) →
        objLoop checker fuel s sch baton v1 d nm flds tagMap backMap = .ok s2 v2 →
        s2 = ⟨rest, none⟩) := by
  intro fuel
  induction fuel with
  | zero =>
    refine ⟨?_, ?_, ?_⟩ <;> intros <;> simp_all [decodeAnything, arrLoop, objLoop]
  | succ n ih =>
    refine ⟨?_, ?_, ?_⟩
    · -- decodeAnything
      intro j rest s baton s2 v2 havail h
      cases j with
      | jstr sv =>
        have hav : s.avail = some (Tok.str sv :: rest) := by
          simpa [Json.toks] using havail
        simp only [decodeAnything, token_of_avail hav] at h
        cases hdv : decodeValue checker baton (.str sv) <;>
          simp [liftV, hdv] at h
        exact h.1.symm
      | jnum q =>
        have hav : s.avail = some (Tok.num q :: rest) := by
          simpa [Json.toks] using havail
        simp only [decodeAnything, token_of_avail hav] at h
        cases hdv : decodeValue checker baton (.num q) <;>
          simp [liftV, hdv] at h
        exact h.1.symm
      | jbool b =>
        have hav : s.avail = some (Tok.bool b :: rest) := by
          simpa [Json.toks] using havail
        simp only [decodeAnything, token_of_avail hav] at h
        cases hdv : decodeValue checker baton (.bool b) <;>
          simp [liftV, hdv] at h
        exact h.1.symm
      | jnull =>
        have hav : s.avail = some (Tok.null :: rest) := by
          simpa [Json.toks] using havail
        simp only [decodeAnything, token_of_avail hav] at h
        cases hdv : decodeValue checker baton .null <;>
          simp [liftV, hdv] at h
        exact h.1.symm
      | jarr es =>
        have hav : s.avail =
            some (Tok.lbrack :: (jsonListToks es ++ (Tok.rbrack :: rest))) := by
          simpa [Json.toks, List.append_assoc] using havail
        simp only [decodeAnything, token_of_avail hav] at h
        rcases hset : arrSetup baton with ⟨m⟩ | ⟨e0⟩ | ⟨sch, itemType⟩ <;>
          rw [hset] at h <;> try dsimp only at h
        · exact absurd h (by simp)
        · exact absurd h (by simp)
        · exact ih.2.1 es rest _ sch itemType baton baton.into 0 s2 v2
            (by simp [DecodeState.avail]) h
      | jobj ms =>
        have hav : s.avail =
            some (Tok.lbrace :: (jsonMembersToks ms ++ (Tok.rbrace :: rest))) := by
          simpa [Json.toks, List.append_assoc] using havail
        simp only [decodeAnything, token_of_avail hav] at h
        rcases hset : objSetup baton with ⟨m⟩ | ⟨e0⟩ | ⟨sch, v1, d, nm, flds, tm, bm⟩ <;>
          rw [hset] at h <;> try dsimp only at h
        · exact absurd h (by simp)
        · exact absurd h (by simp)
        · exact ih.2.2 ms rest _ sch baton v1 d nm flds tm bm s2 v2
            (by simp [DecodeState.avail]) h
    · -- arrLoop
      intro es rest s sch itemType baton acc idx s2 v2 havail h
      cases es with
      | nil =>
        have hav : s.avail = some (Tok.rbrack :: rest) := by
          simpa [jsonListToks] using havail
        simp only [arrLoop, nextToken_of_avail hav] at h
        simp only [if_true] at h
        rcases hrs : reflectSet baton.into acc with _ | into2 <;> rw [hrs] at h
        · exact absurd h (by simp)
        · simp only [DecodeState.token, DRes.ok.injEq] at h
          exact h.1.symm
      | cons j js =>
        obtain ⟨t0, l0, htoks, hnbrack, hnbrace⟩ := toks_head j
        have hav : s.avail =
            some (t0 :: (l0 ++ (jsonListToks js ++ Tok.rbrack :: rest))) := by
          simpa [jsonListToks, htoks, List.append_assoc] using havail
        simp only [arrLoop, nextToken_of_avail hav] at h
        rw [if_neg hnbrack] at h
        rcases hit : sch.items with _ | fs <;> rw [hit] at h <;> try dsimp only at h
        · exact absurd h (by simp)
        · rcases hch : decodeAnything checker n
              ⟨l0 ++ (jsonListToks js ++ Tok.rbrack :: rest), some (.ok t0)⟩
              ⟨fs, GoValue.vptrTo itemType (zeroValue itemType),
                baton.path ++ [toString idx]⟩ with ⟨s3, fv⟩ | ⟨s3, fv, e0⟩ | m <;>
            (rw [hch] at h; try dsimp only at h)
          · have hs3 : s3 = ⟨jsonListToks js ++ Tok.rbrack :: rest, none⟩ :=
              ih.1 j (jsonListToks js ++ Tok.rbrack :: rest) _ _ _ _
                (by simp [DecodeState.avail, htoks]) hch
            subst hs3
            cases fv with
            | vptrTo te fe =>
              dsimp only at h
              rcases hap : goAppend acc fe with _ | acc2 <;> rw [hap] at h
              · exact absurd h (by simp)
              · exact ih.2.1 js rest _ sch itemType baton acc2 (idx + 1) s2 v2
                  (by simp [DecodeState.avail]) h
            | vbool b => exact absurd h (by simp)
            | vstring sv => exact absurd h (by simp)
            | vint ik n0 => exact absurd h (by simp)
            | vfloat32 x => exact absurd h (by simp)
            | vfloat64 x => exact absurd h (by simp)
            | vptrNil te => exact absurd h (by simp)
            | vslice te xs => exact absurd h (by simp)
            | vstruct nm0 fl => exact absurd h (by simp)
            | vinvalid => exact absurd h (by simp)
          · exact absurd h (by simp)
          · exact absurd h (by simp)
    · -- objLoop
      intro ms rest s sch baton v1 d nm flds tagMap backMap s2 v2 havail h
      cases ms with
      | nil =>
        have hav : s.avail = some (Tok.rbrace :: rest) := by
          simpa [jsonMembersToks] using havail
        simp only [objLoop, token_of_avail hav] at h
        simp only [if_true] at h
        simp only [DRes.ok.injEq] at h
        exact h.1.symm
      | cons k j ms2 =>
        have hav : s.avail =
            some (Tok.str k :: (Json.toks j ++ (jsonMembersToks ms2 ++ Tok.rbrace :: rest))) := by
          simpa [jsonMembersToks, List.append_assoc] using havail
        simp only [objLoop, token_of_avail hav] at h
        rw [if_neg (by simp : ¬(Tok.str k = Tok.rbrace))] at h
        try dsimp only at h
        rcases hcs : (match lookupProp sch.properties k with
          | some fs => some (some fs)
          | none =>
            match sch.additionalProperties with
            | some true => some none
            | _ => none) with _ | cs <;> rw [hcs] at h <;> try dsimp only at h
        · exact absurd h (by simp)
        · rcases hch : decodeAnything checker n
              ⟨Json.toks j ++ (jsonMembersToks ms2 ++ Tok.rbrace :: rest), none⟩
              ⟨cs, (match (match mapGet tagMap k with
                     | some i => some i
                     | none => mapGet backMap (goToLower k)) with
                    | some i => fldGet flds i
                    | none => GoValue.vinvalid),
                baton.path ++ [k]⟩ with ⟨s3, fv⟩ | ⟨s3, fv, e0⟩ | m <;>
            (rw [hch] at h; try dsimp only at h)
          · have hs3 : s3 = ⟨jsonMembersToks ms2 ++ Tok.rbrace :: rest, none⟩ :=
              ih.1 j (jsonMembersToks ms2 ++ Tok.rbrace :: rest) _ _ _ _
                (by simp [DecodeState.avail]) hch
            subst hs3
            exact ih.2.2 ms2 rest _ sch baton v1 d nm _ tagMap backMap s2 v2
              (by simp [DecodeState.avail]) h
          · exact absurd h (by simp)
          · exact absurd h (by simp)

/-- C1.  Every token of a well-formed JSON document is read exactly once:
a successful `decodeAnything` call on a stream holding the serialized
tokens of one JSON value followed by any remainder ends with exactly the
remainder left and an empty pushback slot (so each recursive call consumed
exactly the tokens of one complete value, never re-reading past the
one-slot pushback and never skipping), and a successful top-level
`ValidateParse` of a document leaves no tokens of the document unread and
the pushback buffer empty. -/
theorem c1_single_consumption :
    (∀ (checker : Checker) (fuel : Nat) (j : Json) (rest : List Tok)
        (s : DecodeState) (baton : Baton) (s2 : DecodeState) (v2 : GoValue),
      s.avail = some (Json.toks j ++ rest) →
      decodeAnything checker fuel s baton = .ok s2 v2 → s2 = ⟨rest, none⟩) ∧
    (∀ (checker : Checker) (fuel : Nat) (j : Json) (into : GoValue)
        (schema : Option Schema) (s2 : DecodeState) (v2 : GoValue),
      ValidateParse checker fuel (Json.toks j) into schema = .ok s2 v2 →
      s2 = ⟨[], none⟩) := by
  constructor
  · intro checker fuel
    exact (consumes_exactly checker fuel).1
  · intro checker fuel j into schema s2 v2 h
    unfold ValidateParse at h
    cases into with
    | vptrTo t pv =>
      dsimp only at h
      rcases hch : decodeAnything checker fuel ⟨Json.toks j, none⟩
          ⟨schema, pv, []⟩ with ⟨s3, fv⟩ | ⟨s3, fv, e0⟩ | m <;> rw [hch] at h
      · have hs3 : s3 = ⟨[], none⟩ :=
          (consumes_exactly checker fuel).1 j [] _ _ _ _
            (by simp [DecodeState.avail]) hch
        simp only [DRes.ok.injEq] at h
        rw [← h.1, hs3]
      · exact absurd h (by simp)
      · exact absurd h (by simp)
    | vbool b => exact absurd h (by simp)
    | vstring sv => exact absurd h (by simp)
    | vint ik n0 => exact absurd h (by simp)
    | vfloat32 x => exact absurd h (by simp)
    | vfloat64 x => exact absurd h (by simp)
    | vptrNil te => exact absurd h (by simp)
    | vslice te xs => exact absurd h (by simp)
    | vstruct nm fl => exact absurd h (by simp)
    | vinvalid => exact absurd h (by simp)

/-- Witness for C1: a concrete successful top-level decode of the document
`"hi"` consumes the whole stream, leaving no tokens and an empty pushback. -/
theorem c1_witness : (⟨[], none⟩ : DecodeState) = ⟨[], none⟩ :=
  c1_single_consumption.2 (fun _ _ => true) 5 (.jstr "hi")
    (.vptrTo .tstring (.vstring "")) (some (Schema.mk ["string"] [] none none))
    ⟨[], none⟩ (.vptrTo .tstring (.vstring "hi")) rfl

end SchemaStream
